import Mathlib

/-!
Shallow embedding of `flagai/model/llama_model.py` (LLaMA-style decoder-only
transformer): configuration, causal-mask construction, the forward pass of
`LLAMAModel`, and `load_weights`.

Tensors are embedded as nested lists of exact rationals (`ℚ`); machine floats
carry no rounding here, so dtype casts (`.type_as`, `.float()`, `.long()`) are
value-preserving markers.  External collaborators that are not part of the
source file (the transformer blocks, `RMSNorm`, the embedding and output
`nn` modules, the per-position cross-entropy kernel) are abstract function
parameters gathered in `Externals`; pieces of the repository or of torch whose
behaviour a claim depends on but whose code is not in the source file are
modelled from the spec and say so in their doc comments.
-/

namespace LLAMA

/-- A 2-D tensor: list of rows of rationals. -/
abbrev Mat := List (List ℚ)

/-- A 3-D tensor `(batch, seq, channel)`. -/
abbrev T3 := List (List (List ℚ))

/-- A floating value of the additive attention mask: either `-inf`
(`torch.full(..., float("-inf"))`) or a finite rational. -/
inductive FVal where
  | negInf : FVal
  | fin : ℚ → FVal
deriving DecidableEq, Repr

/-- The `(1, 1, seqlen, seqlen)` mask tensor built in `LLAMAModel.forward`:
two leading broadcast dimensions plus an entry function indexed by
(row = query position, column = attended/key position). -/
structure MaskT where
  d0 : ℕ
  d1 : ℕ
  rows : ℕ
  cols : ℕ
  entry : ℕ → ℕ → FVal

/-- `torch.full((1, 1, s, s), float("-inf"))`. -/
def fullNegInf (s : ℕ) : MaskT :=
  { d0 := 1, d1 := 1, rows := s, cols := s, entry := fun _ _ => FVal.negInf }

/-- `torch.triu(m, diagonal=d)` on the last two dimensions: keep the entry at
(row `i`, column `j`) when `j ≥ i + d`, set it to `0` otherwise. -/
def triu (d : ℤ) (m : MaskT) : MaskT :=
  { m with entry := fun i j => if (j : ℤ) ≥ (i : ℤ) + d then m.entry i j else FVal.fin 0 }

/-- `.type_as(h)`: a dtype cast, value-preserving in the exact model. -/
def typeAs (m : MaskT) : MaskT := m

/-- Lines 186–189 of `LLAMAModel.forward`: `mask = None`; if `seqlen > 1`,
`mask = torch.triu(torch.full((1,1,seqlen,seqlen), -inf), diagonal=start_pos+1)`. -/
def forwardMask (start_pos seqlen : ℕ) : Option MaskT :=
  if seqlen > 1 then
    some (typeAs (triu ((start_pos : ℤ) + 1) (fullNegInf seqlen)))
  else
    none

/-- The configuration record built by `LLAMAConfig.__init__`, with its Python
default values (floats rendered as exact rationals). -/
structure LLAMAConfig where
  vocab_size : ℕ := 32000
  dim : ℕ := 4096
  max_seq_len : ℕ := 2048
  max_batch_size : ℕ := 32
  multiple_of : Option ℕ := none
  n_layers : ℕ := 32
  n_heads : ℕ := 32
  initializer_range : ℚ := 1 / 50
  checkpoint_activations : Bool := false
  norm_eps : ℚ := 1 / 1000000
  use_cache : Bool := false
  flash_atten : Bool := false
  flash_atten_pdrop : ℚ := 0
  ignore_index : ℤ := -100
  bmt_comm_overlap : Bool := false

/-- The default configuration, `LLAMAConfig()`. -/
def LLAMAConfig.default : LLAMAConfig := {}

/-- The precomputed rotary table together with the device it currently lives
on (`self.freqs_cis`; devices are abstract tags). -/
structure FreqsT where
  device : ℕ
  table : Mat

/-- Modelled from the spec: `precompute_freqs_cis` lives in
`flagai/model/layers/attentions.py`, which is not part of the source file.
Per the spec it is a pure function of `(head_dim d, length n)` producing a
dense `(n, d/2)` table whose entry at `(pos, i)` is the unit-magnitude complex
rotation of angle `pos * theta_i` with `theta_i = base^(-2i/d)`.  The
transcendental frequencies are abstracted into the parameter `θ`; each entry
is represented by its angle `pos * θ i`. -/
def precompute_freqs_cis (θ : ℕ → ℚ) (d n : ℕ) : Mat :=
  (List.range n).map fun (pos : ℕ) =>
    (List.range (d / 2)).map fun (i : ℕ) => (pos : ℚ) * θ i

/-- The mutable state of `LLAMAModel` that the embedded operations touch:
the config copy, `self.use_cache`, `self.start_pos` and `self.freqs_cis`.
Learned weights live inside the abstract external modules. -/
structure ModelState where
  config : LLAMAConfig
  use_cache : Bool
  start_pos : ℕ
  freqs_cis : FreqsT

/-- Modelled from the spec: `LLAMAModel.__init__`.  The constructor copies the
config, sets `self.use_cache`, `self.start_pos = 0` and precomputes
`self.freqs_cis = precompute_freqs_cis(dim // n_heads, max_seq_len * 2)`.
The rotary-table/block construction itself (`precompute_freqs_cis`,
`LLAMABlock`) is not under the source file; per the spec it fails with a
dimension error when `dim` is not divisible by `n_heads`. -/
def initModel (θ : ℕ → ℚ) (cfg : LLAMAConfig) : Except String ModelState :=
  if cfg.dim % cfg.n_heads ≠ 0 then
    Except.error "dimension error: dim must be divisible by n_heads"
  else
    Except.ok
      { config := cfg
        use_cache := cfg.use_cache
        start_pos := 0
        freqs_cis :=
          { device := 0
            table := precompute_freqs_cis θ (cfg.dim / cfg.n_heads) (cfg.max_seq_len * 2) } }

/-- A value stored in the returned output mapping: a 2-D tensor, a 3-D tensor
or a scalar (the loss). -/
inductive TVal where
  | t2 : Mat → TVal
  | t3 : T3 → TVal
  | scalar : ℚ → TVal
deriving DecidableEq

/-- The external collaborators of `LLAMAModel.forward`, abstract because their
code is not part of the source file: the token-embedding module, the per-layer
transformer block (taking `layer_id`, the propagated `use_cache` and
`start_pos` directives, the hidden state, the rotary slice and the mask), the
`RMSNorm` and output-projection modules acting on one channel vector (both
torch modules act pointwise over the last dimension), the per-position
cross-entropy kernel `ce logitsRow target`, and the process-wide `ENV_TYPE`. -/
structure Externals where
  tokEmbed : List (List ℤ) → T3
  block : ℕ → Bool → ℕ → T3 → Mat → Option MaskT → T3
  normRow : List ℚ → List ℚ
  outRow : List ℚ → List ℚ
  ce : List ℚ → ℤ → ℚ
  envType : String

/-- `create_custom_forward(module)`: returns a closure calling the module. -/
def create_custom_forward {α β : Type} (module : α → β) : α → β :=
  fun inputs => module inputs

/-- Modelled from the spec: the `checkpoint` capability (one of three
backends selected by `ENV_TYPE`) calls the given function, trading memory for
recompute; functionally it is plain application. -/
def checkpoint {α β : Type} (f : α → β) (x : α) : β := f x

/-- `self.norm(h)`: `RMSNorm` applied over the last dimension of a
`(batch, seq, dim)` tensor. -/
def normLift (E : Externals) (h : T3) : T3 :=
  h.map fun rows => rows.map E.normRow

/-- `self.output(h)` on a 3-D tensor: `nn.Linear` applied over the last
dimension. -/
def outLift3 (E : Externals) (h : T3) : T3 :=
  h.map fun rows => rows.map E.outRow

/-- `self.output(m)` on a 2-D tensor. -/
def outLift2 (E : Externals) (m : Mat) : Mat :=
  m.map E.outRow

/-- `.float()`: upcast to full precision, value-preserving in the exact
model. -/
def floatUpcast (m : Mat) : Mat := m

/-- `h[:, -1, :]`: select the last sequence position of every batch row. -/
def lastPositions (h : T3) : Mat :=
  h.map fun rows => rows.getLastD []

/-- `seqlen` from `input_ids.shape` (all batch rows share one length). -/
def seqlenOf (input_ids : List (List ℤ)) : ℕ :=
  (input_ids.headD []).length

/-- Modelled from the spec: `torch.nn.CrossEntropyLoss(ignore_index=i)` with
mean reduction over a flattened batch — the mean of the per-position loss
`ce` over exactly the positions whose target differs from the ignore-index.
Pairs the flattened logits rows with the flattened targets. -/
def crossEntropyMeanPairs (ce : List ℚ → ℤ → ℚ) (ignoreIndex : ℤ)
    (pairs : List (List ℚ × ℤ)) : ℚ :=
  let kept := pairs.filter fun p => p.2 ≠ ignoreIndex
  (kept.map fun p => ce p.1 p.2).sum / kept.length

/-- `self.loss_func(logits, targets)` on flattened inputs. -/
def crossEntropyMean (ce : List ℚ → ℤ → ℚ) (ignoreIndex : ℤ)
    (logits : Mat) (targets : List ℤ) : ℚ :=
  crossEntropyMeanPairs ce ignoreIndex (logits.zip targets)

/-- `.mean()` on the already-reduced scalar loss: the identity. -/
def meanScalar (q : ℚ) : ℚ := q

/-- Modelled from the spec: `bmt.TransformerBlockList` execution — the
communication-overlap path is functionally identical to running the blocks
sequentially. -/
def blockListRun (E : Externals) (nLayers : ℕ) (useCache : Bool) (sp : ℕ)
    (h : T3) (freqs : Mat) (mask : Option MaskT) : T3 :=
  (List.range nLayers).foldl (fun acc i => E.block i useCache sp acc freqs mask) h

/-- The block-stack loop of `LLAMAModel.forward` (lines 191–209): one of three
strategies chosen by `checkpoint_activations` and `ENV_TYPE == "bmtrain"` with
`bmt_comm_overlap`; each sets `layer.use_cache` and `layer.start_pos` before
invoking the layer. -/
def runBlocks (E : Externals) (cfg : LLAMAConfig) (useCache : Bool) (sp : ℕ)
    (h : T3) (freqs : Mat) (mask : Option MaskT) : T3 :=
  if cfg.checkpoint_activations then
    (List.range cfg.n_layers).foldl
      (fun acc i => checkpoint (create_custom_forward fun hh => E.block i useCache sp hh freqs mask) acc) h
  else if E.envType = "bmtrain" ∧ cfg.bmt_comm_overlap then
    blockListRun E cfg.n_layers useCache sp h freqs mask
  else
    (List.range cfg.n_layers).foldl (fun acc i => E.block i useCache sp acc freqs mask) h

/-- `LLAMAModel.forward(input_ids, start_pos=0, labels=None)`, embedded as a
function from the model state (plus the device `dev` of `input_ids` and hence
of the activations) to the updated state and the returned output mapping,
transcribing lines 178–233 of the source. -/
def forward (E : Externals) (st : ModelState) (input_ids : List (List ℤ))
    (dev : ℕ) (start_pos : ℕ := 0) (labels : Option (List (List ℤ)) := none) :
    ModelState × List (String × TVal) :=
  let cfg := st.config
  let seqlen := seqlenOf input_ids
  let h : T3 :=
    if cfg.checkpoint_activations then
      checkpoint (create_custom_forward E.tokEmbed) input_ids
    else
      E.tokEmbed input_ids
  let freqsMoved : FreqsT := { st.freqs_cis with device := dev }
  let freqs_cis : Mat := (freqsMoved.table.drop start_pos).take seqlen
  let mask : Option MaskT := forwardMask start_pos seqlen
  let st' : ModelState := { st with start_pos := start_pos, freqs_cis := freqsMoved }
  let h := runBlocks E cfg st.use_cache start_pos h freqs_cis mask
  match labels with
  | some lab =>
      let h := normLift E h
      let h :=
        if cfg.checkpoint_activations then
          checkpoint (create_custom_forward (outLift3 E)) h
        else
          outLift3 E h
      let shift_logits : T3 := h.map List.dropLast
      let shift_labels : List (List ℤ) := lab.map (List.drop 1)
      let loss := meanScalar (crossEntropyMean E.ce cfg.ignore_index
        shift_logits.flatten shift_labels.flatten)
      (st', [("logits", TVal.t3 h), ("loss", TVal.scalar loss),
             ("hidden_states", TVal.t3 h)])
  | none =>
      let output := outLift2 E (lastPositions h)
      (st', [("logits", TVal.t2 (floatUpcast output))])

/-- The hidden state after the block stack, decomposed for the refinement
theorems: embed, then fold the blocks over the rotary slice
`[start_pos, start_pos+seqlen)` and the causal mask. -/
def hiddenAfterBlocks (E : Externals) (st : ModelState)
    (input_ids : List (List ℤ)) (start_pos : ℕ) : T3 :=
  let seqlen := seqlenOf input_ids
  (List.range st.config.n_layers).foldl
    (fun acc i => E.block i st.use_cache start_pos acc
      ((st.freqs_cis.table.drop start_pos).take seqlen)
      (forwardMask start_pos seqlen))
    (E.tokEmbed input_ids)

/-- A value of a deserialized snapshot: a parameter tensor, or (under the key
`"module"`) a nested dictionary of parameter tensors. -/
inductive SVal where
  | tensor : Mat → SVal
  | subdict : List (String × Mat) → SVal
deriving DecidableEq

/-- A deserialized snapshot, as `torch.load` returns it: an ordered mapping
from names to values. -/
abbrev StateDict := List (String × SVal)

/-- `if "module" in sd: sd = sd["module"]` — unwrap one nesting level when the
key `"module"` is present (in a real checkpoint it maps to a sub-dictionary). -/
def unwrapModule (sd : StateDict) : StateDict :=
  match List.lookup "module" sd with
  | some (SVal.subdict d) => d.map fun p => (p.1, SVal.tensor p.2)
  | _ => sd

/-- Modelled from the spec: `self.load_state_dict(sd, strict=False)` (torch,
not part of the source file) — assign matching-named parameters in place,
leave parameters whose name the dictionary misses unchanged, ignore extra
entries, and never raise on a missing name. -/
def load_state_dict_nonstrict (params : List (String × Mat)) (sd : StateDict) :
    List (String × Mat) :=
  params.map fun p =>
    match List.lookup p.1 sd with
    | some (SVal.tensor w) => (p.1, w)
    | _ => p

/-- `LLAMAModel.load_weights` (lines 235–240), after `torch.load` has
deserialized the snapshot: unwrap `"module"` when present, load non-strictly
into the named parameters, and print a confirmation (returned as the second
component). -/
def load_weights (params : List (String × Mat)) (sd : StateDict) :
    List (String × Mat) × String :=
  (load_state_dict_nonstrict params (unwrapModule sd),
   "model config are loaded successfully...")

/-- The flattened (logits row, target) pairs the training loss is computed
over: post-projection logits rows with the last sequence position dropped,
zipped with the labels with the first position dropped. -/
def shiftedPairs (E : Externals) (st : ModelState) (ids : List (List ℤ))
    (sp : ℕ) (lab : List (List ℤ)) : List (List ℚ × ℤ) :=
  ((((outLift3 E (normLift E (hiddenAfterBlocks E st ids sp))).map
      List.dropLast).flatten).zip ((lab.map (List.drop 1)).flatten))

/-- A concrete instantiation of the external modules, used to evaluate the
embedded `forward` on explicit inputs: the token embedding maps id `z` to the
one-channel vector `[z]`, every block is the identity, the normalization is
the identity map, the output projection sums the channels into a single
vocabulary logit, and the per-position cross-entropy is `sum of logits row
minus target`. -/
def exE : Externals where
  tokEmbed := fun ids => ids.map fun r => r.map fun (z : ℤ) => [(z : ℚ)]
  block := fun _ _ _ h _ _ => h
  normRow := fun v => v
  outRow := fun v => [v.sum]
  ce := fun v t => v.sum - (t : ℚ)
  envType := ""

/-- A small concrete model state for evaluating `forward`. -/
def exState : ModelState where
  config := { vocab_size := 8, dim := 4, max_seq_len := 2, n_layers := 1, n_heads := 2 }
  use_cache := false
  start_pos := 0
  freqs_cis := { device := 0, table := [[0], [1], [2], [3]] }

/-- A small concrete configuration for evaluating `initModel`. -/
def exCfg : LLAMAConfig :=
  { vocab_size := 8, dim := 4, max_seq_len := 1, n_layers := 1, n_heads := 2 }

/-- The state `initModel (fun _ => 0) exCfg` constructs. -/
def exInitState : ModelState :=
  { config := exCfg
    use_cache := false
    start_pos := 0
    freqs_cis := { device := 0, table := precompute_freqs_cis (fun _ => 0) 2 2 } }

/-- Concrete named parameters for evaluating `load_weights`. -/
def paramsW : List (String × Mat) := [("a", [[1]]), ("b", [[2]])]

/-- A concrete snapshot wrapped under `"module"`, holding a tensor for `"a"`
and an extra entry, but no tensor for `"b"`. -/
def sdW : StateDict :=
  [("module", SVal.subdict [("a", [[5]]), ("extra", [[7]])])]

/-! ## Theorems -/

/-- All three block-stack execution strategies compute the same sequential
fold of the blocks. -/
theorem runBlocks_eq (E : Externals) (cfg : LLAMAConfig) (uc : Bool) (sp : ℕ)
    (h : T3) (freqs : Mat) (mask : Option MaskT) :
    runBlocks E cfg uc sp h freqs mask =
      (List.range cfg.n_layers).foldl (fun acc i => E.block i uc sp acc freqs mask) h := by
  unfold runBlocks blockListRun checkpoint create_custom_forward
  split
  · rfl
  · split
    · rfl
    · rfl

/-- `forward` without labels: the updated state moves the rotary table to the
activation device and records `start_pos`; the output maps `"logits"` to the
float-upcast projection of the last positions of the block-stack output. -/
theorem forward_none_eq (E : Externals) (st : ModelState)
    (ids : List (List ℤ)) (dev : ℕ) (sp : ℕ) :
    forward E st ids dev sp none =
      ({ st with start_pos := sp, freqs_cis := { st.freqs_cis with device := dev } },
       [("logits",
         TVal.t2 (floatUpcast (outLift2 E (lastPositions (hiddenAfterBlocks E st ids sp)))))]) := by
  cases hc : st.config.checkpoint_activations <;>
    simp [forward, hiddenAfterBlocks, runBlocks_eq, hc, checkpoint, create_custom_forward]

/-- `forward` with labels: normalize, project, shift, and return the same
post-projection tensor under both `"logits"` and `"hidden_states"`. -/
theorem forward_some_eq (E : Externals) (st : ModelState)
    (ids : List (List ℤ)) (dev : ℕ) (sp : ℕ) (lab : List (List ℤ)) :
    forward E st ids dev sp (some lab) =
      ({ st with start_pos := sp, freqs_cis := { st.freqs_cis with device := dev } },
       [("logits", TVal.t3 (outLift3 E (normLift E (hiddenAfterBlocks E st ids sp)))),
        ("loss", TVal.scalar (crossEntropyMean E.ce st.config.ignore_index
          (((outLift3 E (normLift E (hiddenAfterBlocks E st ids sp))).map List.dropLast).flatten)
          ((lab.map (List.drop 1)).flatten))),
        ("hidden_states", TVal.t3 (outLift3 E (normLift E (hiddenAfterBlocks E st ids sp))))]) := by
  cases hc : st.config.checkpoint_activations <;>
    simp [forward, hiddenAfterBlocks, runBlocks_eq, meanScalar, hc, checkpoint,
      create_custom_forward]

/-- C3: a config whose `dim` is not divisible by `n_heads` makes model
construction fail with a dimension error, and every config for which
construction succeeds satisfies `dim % n_heads == 0`. -/
theorem initModel_dim_divisibility (θ : ℕ → ℚ) (cfg : LLAMAConfig) :
    (cfg.dim % cfg.n_heads ≠ 0 → ∃ e, initModel θ cfg = Except.error e) ∧
    (∀ st, initModel θ cfg = Except.ok st → cfg.dim % cfg.n_heads = 0) := by
  constructor
  · intro h
    exact ⟨"dimension error: dim must be divisible by n_heads", by simp [initModel, h]⟩
  · intro st h
    by_contra hc
    simp [initModel, hc] at h

/-- Witness for `initModel_dim_divisibility`: `dim = 10, n_heads = 3` fails,
and a succeeding construction (`dim = 4, n_heads = 2`) has `dim % n_heads = 0`. -/
theorem initModel_dim_divisibility_witness :
    ((10 : ℕ) % 3 ≠ 0 ∧
      ∃ e, initModel (fun _ => 0) { dim := 10, n_heads := 3 } = Except.error e) ∧
    ((({ dim := 4, n_heads := 2, max_seq_len := 1 } : LLAMAConfig)).dim % 2 = 0) :=
  ⟨⟨by decide, (initModel_dim_divisibility (fun _ => 0) _).1 (by decide)⟩,
   (initModel_dim_divisibility (fun _ => 0)
     { dim := 4, n_heads := 2, max_seq_len := 1 }).2 _ rfl⟩

/-- C1: For every forward call with `seqlen > 1`, a `(1,1,seqlen,seqlen)`
additive causal mask is built whose entries are negative infinity exactly
above the diagonal offset by `start_pos + 1` — query position `j` may attend
to position `i` (entry at row `j`, column `i` not `-inf`) iff
`i ≤ j + start_pos` — and zero elsewhere; for `seqlen == 1` the mask stays
`None`. -/
theorem forward_mask_causal (start_pos seqlen : ℕ) :
    (1 < seqlen →
      ∃ m, forwardMask start_pos seqlen = some m ∧
        m.d0 = 1 ∧ m.d1 = 1 ∧ m.rows = seqlen ∧ m.cols = seqlen ∧
        ∀ j i, j < seqlen → i < seqlen →
          ((m.entry j i ≠ FVal.negInf ↔ i ≤ j + start_pos) ∧
            (m.entry j i = FVal.negInf ∨ m.entry j i = FVal.fin 0))) ∧
    (seqlen = 1 → forwardMask start_pos seqlen = none) := by
  constructor
  · intro hs
    refine ⟨typeAs (triu ((start_pos : ℤ) + 1) (fullNegInf seqlen)),
      by simp [forwardMask, hs], rfl, rfl, rfl, rfl, ?_⟩
    intro j i _ _
    unfold typeAs triu fullNegInf
    dsimp only
    by_cases hc : (i : ℤ) ≥ (j : ℤ) + ((start_pos : ℤ) + 1)
    · rw [if_pos hc]
      refine ⟨?_, Or.inl rfl⟩
      simp only [ne_eq, not_true_eq_false, false_iff]
      omega
    · rw [if_neg hc]
      refine ⟨?_, Or.inr rfl⟩
      simp only [ne_eq, reduceCtorEq, not_false_eq_true, true_iff]
      omega
  · intro hs
    subst hs
    rfl

/-- Witness for `forward_mask_causal` at `start_pos = 2, seqlen = 4` (masked
branch) and `start_pos = 9, seqlen = 1` (no-mask branch). -/
theorem forward_mask_causal_witness :
    (1 < 4 ∧ ∃ m, forwardMask 2 4 = some m ∧
      m.d0 = 1 ∧ m.d1 = 1 ∧ m.rows = 4 ∧ m.cols = 4 ∧
      ∀ j i, j < 4 → i < 4 →
        ((m.entry j i ≠ FVal.negInf ↔ i ≤ j + 2) ∧
          (m.entry j i = FVal.negInf ∨ m.entry j i = FVal.fin 0))) ∧
    ((1 : ℕ) = 1 ∧ forwardMask 9 1 = none) :=
  ⟨⟨by decide, (forward_mask_causal 2 4).1 (by decide)⟩,
   ⟨rfl, (forward_mask_causal 9 1).2 rfl⟩⟩

/-- C2: For `seqlen = 5, start_pos = 0`, the mask lets position `j` attend to
positions `0..j` only, and the entry governing whether `j` attends to `i`
(row `j`, column `i`, the (i, j) convention of the spec's mask description) is
`-inf` iff `i > j` and `0` iff `i ≤ j`. -/
theorem forward_mask_5_0 :
    ∃ m, forwardMask 0 5 = some m ∧
      (∀ j i : Fin 5, m.entry j i = FVal.fin 0 ↔ (i : ℕ) ≤ (j : ℕ)) ∧
      (∀ j i : Fin 5, m.entry j i = FVal.negInf ↔ (j : ℕ) < (i : ℕ)) :=
  ⟨typeAs (triu 1 (fullNegInf 5)), rfl, by decide, by decide⟩

/-- C4 counterexample: at the concrete call `forward exE exState [[1, 2]] 5 0`
with no labels, the returned logits value is the 2-D tensor `[[2]]` of shape
`(batch, vocab) = (1, 1)` — `h[:, -1, :]` squeezes the sequence dimension
away — so the logits are not a 3-D tensor with a sequence-length dimension of
size 1, refuting that conjunct of the claim. -/
theorem forward_inference_logits_squeezed_cex :
    List.lookup "logits" (forward exE exState [[1, 2]] 5 0 none).2 =
      some (TVal.t2 [[2]]) ∧
    ∀ t : T3, List.lookup "logits" (forward exE exState [[1, 2]] 5 0 none).2 ≠
      some (TVal.t3 t) := by
  have hv : List.lookup "logits" (forward exE exState [[1, 2]] 5 0 none).2 =
      some (TVal.t2 [[2]]) := by
    rw [forward_none_eq]
    norm_num [exE, exState, hiddenAfterBlocks, lastPositions, outLift2, floatUpcast,
      seqlenOf, List.lookup]
  refine ⟨hv, fun t h => ?_⟩
  rw [hv] at h
  simp at h

/-- C4 (amended): for every forward call with `labels = None`, the returned
mapping has exactly the key `"logits"` (never `"loss"` or `"hidden_states"`),
and the logits are the output projection applied to the last sequence
position's hidden state, upcast to full precision — a 2-D `(batch, vocab)`
tensor whose sequence dimension is squeezed away (only the last position),
not kept with size 1. -/
theorem forward_inference_only_logits (E : Externals) (st : ModelState)
    (ids : List (List ℤ)) (dev sp : ℕ) :
    ((forward E st ids dev sp none).2.map Prod.fst = ["logits"]) ∧
    ((forward E st ids dev sp none).2 =
      [("logits",
        TVal.t2 (floatUpcast (outLift2 E (lastPositions (hiddenAfterBlocks E st ids sp)))))]) ∧
    (List.lookup "loss" (forward E st ids dev sp none).2 = none) ∧
    (List.lookup "hidden_states" (forward E st ids dev sp none).2 = none) := by
  refine ⟨?_, ?_, ?_, ?_⟩ <;> rw [forward_none_eq] <;> rfl

/-- C5: the final RMS normalization is applied before the output projection
exactly when labels are provided, and skipped when they are absent: over the
same block-stack hidden state `hiddenAfterBlocks E st ids sp`, the labels
branch returns `output(norm(h))` as logits while the no-labels branch returns
the projection of the raw, unnormalized hidden state's last positions. -/
theorem forward_norm_asymmetry (E : Externals) (st : ModelState)
    (ids : List (List ℤ)) (dev sp : ℕ) (lab : List (List ℤ)) :
    (List.lookup "logits" (forward E st ids dev sp (some lab)).2 =
      some (TVal.t3 (outLift3 E (normLift E (hiddenAfterBlocks E st ids sp))))) ∧
    (List.lookup "logits" (forward E st ids dev sp none).2 =
      some (TVal.t2 (floatUpcast (outLift2 E (lastPositions (hiddenAfterBlocks E st ids sp)))))) := by
  constructor
  · rw [forward_some_eq]; rfl
  · rw [forward_none_eq]; rfl

/-- C10: in training mode (labels provided) the returned mapping has exactly
the keys logits, loss and hidden_states, and the `"hidden_states"` entry is
the very same tensor as the `"logits"` entry — both the post-projection
vocabulary logits `output(norm(h))` — so the pre-projection hidden state is
never part of the output. -/
theorem forward_train_hidden_states_eq_logits (E : Externals) (st : ModelState)
    (ids : List (List ℤ)) (dev sp : ℕ) (lab : List (List ℤ)) :
    ((forward E st ids dev sp (some lab)).2.map Prod.fst =
      ["logits", "loss", "hidden_states"]) ∧
    (List.lookup "hidden_states" (forward E st ids dev sp (some lab)).2 =
      List.lookup "logits" (forward E st ids dev sp (some lab)).2) ∧
    (List.lookup "hidden_states" (forward E st ids dev sp (some lab)).2 =
      some (TVal.t3 (outLift3 E (normLift E (hiddenAfterBlocks E st ids sp))))) := by
  refine ⟨?_, ?_, ?_⟩ <;> rw [forward_some_eq] <;> rfl

/-- C6: in every training-mode call over sequences of length `n`, the loss
pairs logits at positions `[0, n-1)` with labels at positions `[1, n)`: every
post-projection logits row is truncated to its first `n - 1` positions and
every label row loses its first position before the flattened cross-entropy
is computed. -/
theorem forward_loss_shift (E : Externals) (st : ModelState)
    (ids : List (List ℤ)) (dev sp : ℕ) (lab : List (List ℤ)) (n : ℕ)
    (hlog : ∀ r ∈ outLift3 E (normLift E (hiddenAfterBlocks E st ids sp)),
      r.length = n) :
    List.lookup "loss" (forward E st ids dev sp (some lab)).2 =
      some (TVal.scalar (crossEntropyMean E.ce st.config.ignore_index
        (((outLift3 E (normLift E (hiddenAfterBlocks E st ids sp))).map
          (fun r => r.take (n - 1))).flatten)
        ((lab.map (List.drop 1)).flatten))) := by
  have hmap : (outLift3 E (normLift E (hiddenAfterBlocks E st ids sp))).map List.dropLast
      = (outLift3 E (normLift E (hiddenAfterBlocks E st ids sp))).map
          (fun r => r.take (n - 1)) :=
    List.map_congr_left fun r hr => by rw [List.dropLast_eq_take, hlog r hr]
  rw [forward_some_eq, hmap]
  rfl

/-- Witness for `forward_loss_shift` at a concrete call with `n = 2`. -/
theorem forward_loss_shift_witness :
    (∀ r ∈ outLift3 exE (normLift exE (hiddenAfterBlocks exE exState [[1, 2]] 0)),
      r.length = 2) ∧
    List.lookup "loss" (forward exE exState [[1, 2]] 7 0 (some [[3, 4]])).2 =
      some (TVal.scalar (crossEntropyMean exE.ce exState.config.ignore_index
        (((outLift3 exE (normLift exE (hiddenAfterBlocks exE exState [[1, 2]] 0))).map
          (fun r => r.take 1)).flatten)
        (([[(3 : ℤ), 4]].map (List.drop 1)).flatten))) := by
  have hlen : ∀ r ∈ outLift3 exE (normLift exE (hiddenAfterBlocks exE exState [[1, 2]] 0)),
      r.length = 2 := by
    simp [exE, exState, hiddenAfterBlocks, outLift3, normLift, seqlenOf]
  exact ⟨hlen, forward_loss_shift exE exState [[1, 2]] 7 0 [[3, 4]] 2 hlen⟩

/-- Erasing a pair whose target equals the ignore-index does not change the
kept (non-ignored) pairs. -/
theorem filter_erase_ignored (ign : ℤ)
    (p : List ℚ × ℤ) (hp : p.2 = ign) (l : List (List ℚ × ℤ)) :
    (l.erase p).filter (fun q => q.2 ≠ ign) = l.filter (fun q => q.2 ≠ ign) := by
  induction l with
  | nil => rfl
  | cons a t ih =>
    by_cases hap : a = p
    · subst hap
      simp [List.erase_cons, List.filter_cons, hp]
    · simp only [List.erase_cons, beq_iff_eq, hap, if_false, List.filter_cons, ih]

/-- Erasing an ignored pair leaves the mean cross-entropy unchanged. -/
theorem crossEntropyMeanPairs_erase_ignored (ce : List ℚ → ℤ → ℚ) (ign : ℤ)
    (pairs : List (List ℚ × ℤ)) (p : List ℚ × ℤ) (hp : p.2 = ign) :
    crossEntropyMeanPairs ce ign (pairs.erase p) =
      crossEntropyMeanPairs ce ign pairs := by
  unfold crossEntropyMeanPairs
  dsimp only
  rw [filter_erase_ignored ign p hp pairs]

/-- C7: the training loss is the mean of the per-position cross-entropy over
exactly the shifted positions whose label differs from the configured
ignore-index: removing a pair whose label equals the ignore-index leaves the
loss unchanged (excluded), every other pair is among those the mean ranges
over (contributes), and the `LLAMAConfig` default ignore-index is `-100`. -/
theorem forward_loss_ignore_index (E : Externals) (st : ModelState)
    (ids : List (List ℤ)) (dev sp : ℕ) (lab : List (List ℤ)) :
    (List.lookup "loss" (forward E st ids dev sp (some lab)).2 =
      some (TVal.scalar (crossEntropyMeanPairs E.ce st.config.ignore_index
        (shiftedPairs E st ids sp lab)))) ∧
    (∀ p ∈ shiftedPairs E st ids sp lab, p.2 = st.config.ignore_index →
      crossEntropyMeanPairs E.ce st.config.ignore_index
          ((shiftedPairs E st ids sp lab).erase p) =
        crossEntropyMeanPairs E.ce st.config.ignore_index
          (shiftedPairs E st ids sp lab)) ∧
    (crossEntropyMeanPairs E.ce st.config.ignore_index (shiftedPairs E st ids sp lab) =
      (((shiftedPairs E st ids sp lab).filter
          (fun q => q.2 ≠ st.config.ignore_index)).map (fun q => E.ce q.1 q.2)).sum /
        ((shiftedPairs E st ids sp lab).filter
          (fun q => q.2 ≠ st.config.ignore_index)).length) ∧
    (LLAMAConfig.default.ignore_index = -100) := by
  refine ⟨?_, ?_, rfl, rfl⟩
  · rw [forward_some_eq]
    rfl
  · intro p _ hip
    exact crossEntropyMeanPairs_erase_ignored E.ce st.config.ignore_index _ p hip

/-- Witness for `forward_loss_ignore_index`: at a concrete call whose single
shifted label is the ignore-index `-100`, erasing that pair leaves the loss
unchanged. -/
theorem forward_loss_ignore_index_witness :
    ([(1 : ℚ)], (-100 : ℤ)) ∈ shiftedPairs exE exState [[1, 2]] 0 [[5, -100]] ∧
    ((-100 : ℤ), (-100 : ℤ)).1 = exState.config.ignore_index ∧
    crossEntropyMeanPairs exE.ce exState.config.ignore_index
        ((shiftedPairs exE exState [[1, 2]] 0 [[5, -100]]).erase ([(1 : ℚ)], (-100 : ℤ))) =
      crossEntropyMeanPairs exE.ce exState.config.ignore_index
        (shiftedPairs exE exState [[1, 2]] 0 [[5, -100]]) := by
  have hmem : ([(1 : ℚ)], (-100 : ℤ)) ∈ shiftedPairs exE exState [[1, 2]] 0 [[5, -100]] := by
    norm_num [shiftedPairs, exE, exState, outLift3, normLift, hiddenAfterBlocks, seqlenOf]
  exact ⟨hmem, rfl,
    (forward_loss_ignore_index exE exState [[1, 2]] 7 0 [[5, -100]]).2.1
      ([(1 : ℚ)], (-100 : ℤ)) hmem rfl⟩

/-- C8: the rotary table is precomputed once at construction for head
dimension `dim // n_heads` and `2 * max_seq_len` positions (so it has
`2 * max_seq_len` rows of `(dim // n_heads) / 2` frequencies each); every
forward call moves the table to the activations' device (the updated state
keeps the same table on the input device) and the block stack consumes
exactly the slice of positions `[start_pos, start_pos + seqlen)` of that
precomputed table. -/
theorem freqs_precompute_and_slice (θ : ℕ → ℚ) (cfg : LLAMAConfig)
    (st : ModelState) (hok : initModel θ cfg = Except.ok st) :
    (st.freqs_cis.table =
      precompute_freqs_cis θ (cfg.dim / cfg.n_heads) (cfg.max_seq_len * 2)) ∧
    (st.freqs_cis.table.length = cfg.max_seq_len * 2) ∧
    (∀ row ∈ st.freqs_cis.table, row.length = cfg.dim / cfg.n_heads / 2) ∧
    (∀ E ids dev sp lb, (forward E st ids dev sp lb).1.freqs_cis =
      { device := dev, table := st.freqs_cis.table }) ∧
    (∀ E ids sp, hiddenAfterBlocks E st ids sp =
      (List.range cfg.n_layers).foldl
        (fun acc i => E.block i st.use_cache sp acc
          (((precompute_freqs_cis θ (cfg.dim / cfg.n_heads)
              (cfg.max_seq_len * 2)).drop sp).take (seqlenOf ids))
          (forwardMask sp (seqlenOf ids)))
        (E.tokEmbed ids)) ∧
    (∀ E ids dev sp, (forward E st ids dev sp none).2 =
      [("logits", TVal.t2 (floatUpcast (outLift2 E (lastPositions
        ((List.range cfg.n_layers).foldl
          (fun acc i => E.block i st.use_cache sp acc
            (((precompute_freqs_cis θ (cfg.dim / cfg.n_heads)
                (cfg.max_seq_len * 2)).drop sp).take (seqlenOf ids))
            (forwardMask sp (seqlenOf ids)))
          (E.tokEmbed ids))))))]) := by
  have hst : st =
      { config := cfg
        use_cache := cfg.use_cache
        start_pos := 0
        freqs_cis :=
          { device := 0
            table := precompute_freqs_cis θ (cfg.dim / cfg.n_heads)
              (cfg.max_seq_len * 2) } } := by
    by_cases hd : cfg.dim % cfg.n_heads ≠ 0
    · simp [initModel, hd] at hok
    · simp [initModel, hd] at hok
      exact hok.symm
  subst hst
  refine ⟨rfl, ?_, ?_, ?_, ?_, ?_⟩
  · show (precompute_freqs_cis θ (cfg.dim / cfg.n_heads) (cfg.max_seq_len * 2)).length =
      cfg.max_seq_len * 2
    unfold precompute_freqs_cis
    rw [List.length_map, List.length_range]
  · intro row hr
    simp only [precompute_freqs_cis, List.mem_map] at hr
    obtain ⟨pos, -, rfl⟩ := hr
    simp
  · intro E ids dev sp lb
    cases lb with
    | none => rw [forward_none_eq]
    | some lab => rw [forward_some_eq]
  · intro E ids sp
    rfl
  · intro E ids dev sp
    rw [forward_none_eq]
    rfl

/-- Witness for `freqs_precompute_and_slice` at the concrete configuration
`exCfg`, whose construction succeeds with state `exInitState`. -/
theorem freqs_precompute_and_slice_witness :
    initModel (fun _ => 0) exCfg = Except.ok exInitState ∧
    ((exInitState.freqs_cis.table =
      precompute_freqs_cis (fun _ => 0) (exCfg.dim / exCfg.n_heads)
        (exCfg.max_seq_len * 2)) ∧
    (exInitState.freqs_cis.table.length = exCfg.max_seq_len * 2) ∧
    (∀ row ∈ exInitState.freqs_cis.table,
      row.length = exCfg.dim / exCfg.n_heads / 2) ∧
    (∀ E ids dev sp lb, (forward E exInitState ids dev sp lb).1.freqs_cis =
      { device := dev, table := exInitState.freqs_cis.table }) ∧
    (∀ E ids sp, hiddenAfterBlocks E exInitState ids sp =
      (List.range exCfg.n_layers).foldl
        (fun acc i => E.block i exInitState.use_cache sp acc
          (((precompute_freqs_cis (fun _ => 0) (exCfg.dim / exCfg.n_heads)
              (exCfg.max_seq_len * 2)).drop sp).take (seqlenOf ids))
          (forwardMask sp (seqlenOf ids)))
        (E.tokEmbed ids)) ∧
    (∀ E ids dev sp, (forward E exInitState ids dev sp none).2 =
      [("logits", TVal.t2 (floatUpcast (outLift2 E (lastPositions
        ((List.range exCfg.n_layers).foldl
          (fun acc i => E.block i exInitState.use_cache sp acc
            (((precompute_freqs_cis (fun _ => 0) (exCfg.dim / exCfg.n_heads)
                (exCfg.max_seq_len * 2)).drop sp).take (seqlenOf ids))
            (forwardMask sp (seqlenOf ids)))
          (E.tokEmbed ids))))))])) :=
  ⟨rfl, freqs_precompute_and_slice (fun _ => 0) exCfg exInitState rfl⟩

/-- Looking a key up in a dictionary whose values were all wrapped in
`SVal.tensor` returns the wrapped original lookup. -/
theorem lookup_map_tensor (d : List (String × Mat)) (k : String) :
    List.lookup k (d.map fun p => (p.1, SVal.tensor p.2)) =
      (List.lookup k d).map SVal.tensor := by
  induction d with
  | nil => rfl
  | cons a t ih =>
    by_cases h : k = a.1
    · simp [List.lookup, h, ih]
    · have hb : (k == a.1) = false := beq_eq_false_iff_ne.mpr h
      simp [List.lookup, hb, ih]

/-- C9: `load_weights` unwraps one nesting level under `"module"` when that
key is present, assigns matching-named parameters non-strictly — every
parameter name is kept (in order), a parameter whose name the dictionary
misses stays unchanged rather than raising, a parameter whose name carries a
tensor is assigned it — and returns the printed confirmation message. -/
theorem load_weights_nonstrict (params : List (String × Mat)) (sd : StateDict) :
    (∀ d, List.lookup "module" sd = some (SVal.subdict d) →
      load_weights params sd =
        load_weights params (d.map fun p => (p.1, SVal.tensor p.2))) ∧
    ((load_weights params sd).1.map Prod.fst = params.map Prod.fst) ∧
    (∀ p ∈ params, List.lookup p.1 (unwrapModule sd) = none →
      p ∈ (load_weights params sd).1) ∧
    (∀ p ∈ params, ∀ w, List.lookup p.1 (unwrapModule sd) = some (SVal.tensor w) →
      (p.1, w) ∈ (load_weights params sd).1) ∧
    ((load_weights params sd).2 = "model config are loaded successfully...") := by
  refine ⟨?_, ?_, ?_, ?_, rfl⟩
  · intro d hd
    have h1 : unwrapModule sd = d.map fun p => (p.1, SVal.tensor p.2) := by
      unfold unwrapModule
      rw [hd]
    have h2 : unwrapModule (d.map fun p => (p.1, SVal.tensor p.2)) =
        d.map fun p => (p.1, SVal.tensor p.2) := by
      unfold unwrapModule
      rw [lookup_map_tensor]
      cases List.lookup "module" d <;> rfl
    unfold load_weights
    rw [h1, h2]
  · unfold load_weights load_state_dict_nonstrict
    rw [List.map_map]
    refine List.map_congr_left fun p _ => ?_
    simp only [Function.comp_apply]
    cases h : List.lookup p.1 (unwrapModule sd) with
    | none => rfl
    | some v => cases v <;> rfl
  · intro p hp hn
    unfold load_weights load_state_dict_nonstrict
    exact List.mem_map.mpr ⟨p, hp, by rw [hn]⟩
  · intro p hp w hw
    unfold load_weights load_state_dict_nonstrict
    exact List.mem_map.mpr ⟨p, hp, by rw [hw]⟩

/-- Witness for `load_weights_nonstrict` at the concrete `paramsW`/`sdW`:
the snapshot is unwrapped from under `"module"`, the missing parameter `"b"`
keeps its old tensor, and the present parameter `"a"` is assigned. -/
theorem load_weights_nonstrict_witness :
    (List.lookup "module" sdW =
        some (SVal.subdict [("a", [[5]]), ("extra", [[7]])]) ∧
      load_weights paramsW sdW =
        load_weights paramsW [("a", SVal.tensor [[5]]), ("extra", SVal.tensor [[7]])]) ∧
    (("b", ([[2]] : Mat)) ∈ paramsW ∧
      List.lookup "b" (unwrapModule sdW) = none ∧
      ("b", ([[2]] : Mat)) ∈ (load_weights paramsW sdW).1) ∧
    (("a", ([[1]] : Mat)) ∈ paramsW ∧
      List.lookup "a" (unwrapModule sdW) = some (SVal.tensor [[5]]) ∧
      ("a", ([[5]] : Mat)) ∈ (load_weights paramsW sdW).1) ∧
    ((load_weights paramsW sdW).2 = "model config are loaded successfully...") := by
  have h := load_weights_nonstrict paramsW sdW
  have hmb : ("b", ([[2]] : Mat)) ∈ paramsW := by simp [paramsW]
  have hma : ("a", ([[1]] : Mat)) ∈ paramsW := by simp [paramsW]
  have hlb : List.lookup "b" (unwrapModule sdW) = none := rfl
  have hla : List.lookup "a" (unwrapModule sdW) = some (SVal.tensor [[5]]) := rfl
  exact ⟨⟨rfl, h.1 _ rfl⟩, ⟨hmb, hlb, h.2.2.1 _ hmb hlb⟩,
    ⟨hma, hla, h.2.2.2.1 _ hma _ hla⟩, h.2.2.2.2⟩

end LLAMA
